import Mathlib

/-!
Shallow embedding of the pomodoro-timer application (src/app.js) and proofs
about its timer state machine, statistics aggregator, session store and
settings store.

Modelling conventions:

* JavaScript Date instants are modelled as integer minutes since an epoch
  (`Int`); calendar dates are modelled as integer day indexes.  A date string
  "YYYY-MM-DD" is identified with its day index; `new Date(dateString)`
  parses to UTC midnight of that day, i.e. instant `date * 1440`.
* `Date.prototype.toISOString` exposes the UTC calendar day of an instant
  (`utcDateOf`), while `getHours` exposes the local hour for a timezone
  offset `tz` in minutes (`localHourOf`).  Except for the claim about
  session timestamp fields, where the local/UTC distinction is the point,
  the aggregation functions are modelled at whole-day granularity in the
  UTC locale (offset 0), where the day boundaries produced by
  `setHours(0,0,0,0)` / `setHours(23,59,59,999)` and ISO date strings agree.
* JavaScript numbers holding integers are modelled as `Int`; the volume
  `soundVolume / 100` handed to the audio collaborator is a rational.
* The recurring `setInterval` tick source is modelled by a boolean
  "a handle is held" flag plus a `leakedSources` counter that records
  sources that were overwritten without `clearInterval` (the resource-leak
  the specification worries about).  Externally visible effects of
  `complete` (chime volumes, emitted sessions, number of invocations) are
  recorded in append-only event logs inside the state.
-/

namespace Pomodoro

/-- Timer mode: the value of `AppState.currentMode`
(pomodoro | shortBreak | longBreak). -/
inductive Mode where
  | pomodoro
  | shortBreak
  | longBreak
deriving DecidableEq

/-- The settings record (`AppState.settings` and the persisted
`pomodoro_settings` payload). -/
structure Settings where
  pomodoroMinutes : Int
  shortBreakMinutes : Int
  longBreakMinutes : Int
  longBreakInterval : Int
  soundEnabled : Bool
  soundVolume : Int
deriving DecidableEq

/-- Hard-coded defaults from `AppState.settings`. -/
def defaultSettings : Settings :=
  { pomodoroMinutes := 25
    shortBreakMinutes := 5
    longBreakMinutes := 15
    longBreakInterval := 4
    soundEnabled := true
    soundVolume := 50 }

/-- A session record as built in `TimerController.complete`:
`date` is the day index of the ISO date string, `hour` the local hour,
`duration` the credited minutes, `stype` the `type` field (always
`pomodoro` for records created by the app), `timestamp` the creation
instant in minutes. -/
structure Session where
  date : Int
  hour : Int
  duration : Int
  stype : Mode
  timestamp : Int
deriving DecidableEq

/-- UTC calendar day of an instant: the date part of `toISOString`. -/
def utcDateOf (t : Int) : Int := t.fdiv 1440

/-- Local calendar day of an instant for timezone offset `tz` minutes. -/
def localDateOf (t tz : Int) : Int := (t + tz).fdiv 1440

/-- Local hour of day of an instant (`Date.prototype.getHours`). -/
def localHourOf (t tz : Int) : Int := ((t + tz).emod 1440).fdiv 60

/-! ### Session store (`StorageManager`) -/

/-- The retention predicate of `StorageManager.addSession`:
`new Date(s.date) >= cutoff` where `cutoff` is the instant `now` minus
90 days (time of day preserved) and `new Date(s.date)` is UTC midnight
of the session day. -/
def sessionKeep (now : Int) (s : Session) : Bool :=
  now - 90 * 1440 ≤ s.date * 1440

/-- `StorageManager.addSession`: load the stored list, push the new session
at the end, drop entries older than the 90-day cutoff, persist and return
the filtered list. -/
def addSession (stored : List Session) (now : Int) (s : Session) : List Session :=
  (stored ++ [s]).filter (sessionKeep now)

/-! ### Settings store (`StorageManager.loadSettings` / `UIController.saveSettings`) -/

/-- The persisted settings payload: arbitrary JSON may miss any field, so
every field is optional (a missing or malformed field is `none`). -/
structure StoredSettings where
  pomodoroMinutes : Option Int
  shortBreakMinutes : Option Int
  longBreakMinutes : Option Int
  longBreakInterval : Option Int
  soundEnabled : Option Bool
  soundVolume : Option Int
deriving DecidableEq

/-- `StorageManager.saveSettings` persists the full record. -/
def toStored (s : Settings) : StoredSettings :=
  { pomodoroMinutes := some s.pomodoroMinutes
    shortBreakMinutes := some s.shortBreakMinutes
    longBreakMinutes := some s.longBreakMinutes
    longBreakInterval := some s.longBreakInterval
    soundEnabled := some s.soundEnabled
    soundVolume := some s.soundVolume }

/-- `StorageManager.loadSettings`: spread of the saved payload over the
defaults, field by field. -/
def loadSettings (saved : StoredSettings) : Settings :=
  { pomodoroMinutes := saved.pomodoroMinutes.getD defaultSettings.pomodoroMinutes
    shortBreakMinutes := saved.shortBreakMinutes.getD defaultSettings.shortBreakMinutes
    longBreakMinutes := saved.longBreakMinutes.getD defaultSettings.longBreakMinutes
    longBreakInterval := saved.longBreakInterval.getD defaultSettings.longBreakInterval
    soundEnabled := saved.soundEnabled.getD defaultSettings.soundEnabled
    soundVolume := saved.soundVolume.getD defaultSettings.soundVolume }

/-- The numeric form fields read by `UIController.saveSettings`:
`parseInt(element.value)` yields `none` for NaN, otherwise the integer. -/
structure SettingsForm where
  pomodoroMinutes : Option Int
  shortBreakMinutes : Option Int
  longBreakMinutes : Option Int
  longBreakInterval : Option Int
  soundEnabled : Bool
  soundVolume : Option Int
deriving DecidableEq

/-- `parseInt(x) || d`: NaN and 0 are falsy and fall back to the default. -/
def orDefault (v : Option Int) (d : Int) : Int :=
  match v with
  | none => d
  | some n => if n = 0 then d else n

/-- `Math.min(hi, Math.max(lo, v))`. -/
def clamp (lo hi v : Int) : Int := min hi (max lo v)

/-- The validation and persistence core of `UIController.saveSettings`:
reads the form, applies the falsy-default, clamps the four duration and
interval fields (the source applies no clamp to `soundVolume`), and
returns the settings value that is assigned to `AppState.settings` and
persisted. -/
def uiSaveSettings (f : SettingsForm) : Settings :=
  { pomodoroMinutes := clamp 1 90 (orDefault f.pomodoroMinutes 25)
    shortBreakMinutes := clamp 1 30 (orDefault f.shortBreakMinutes 5)
    longBreakMinutes := clamp 1 60 (orDefault f.longBreakMinutes 15)
    longBreakInterval := clamp 2 8 (orDefault f.longBreakInterval 4)
    soundEnabled := f.soundEnabled
    soundVolume := orDefault f.soundVolume 50 }

/-- `UIController.populateSettingsForm` followed by re-reading the form:
an integer written into a numeric input is parsed back unchanged. -/
def formOf (s : Settings) : SettingsForm :=
  { pomodoroMinutes := some s.pomodoroMinutes
    shortBreakMinutes := some s.shortBreakMinutes
    longBreakMinutes := some s.longBreakMinutes
    longBreakInterval := some s.longBreakInterval
    soundEnabled := s.soundEnabled
    soundVolume := some s.soundVolume }

/-! ### Timer state machine (`AppState` + `TimerController`) -/

/-- The live application state.  Fields up to `stored` mirror `AppState`
(`timerInterval` is the "a setInterval handle is held" flag, `stored` the
persisted `pomodoro_sessions` payload).  `pendingMode` models the
`setTimeout(() => setMode(nextMode), 500)` scheduled by `complete`.
`leakedSources` counts interval sources that were overwritten without
`clearInterval`; `completions`, `chimes` and `emitted` are append-only
event logs recording each `complete()` invocation, each volume passed to
`ALERT_SOUND.play`, and each session handed to the session store. -/
structure TState where
  currentMode : Mode
  isRunning : Bool
  timeRemaining : Int
  totalTime : Int
  timerInterval : Bool
  completedPomodoros : Int
  settings : Settings
  sessions : List Session
  stored : List Session
  pendingMode : Option Mode
  leakedSources : Nat
  completions : Nat
  chimes : List Rat
  emitted : List Session
deriving DecidableEq

/-- `TimerController.getModeSettings()[mode].minutes`. -/
def modeMinutes (s : Settings) : Mode → Int
  | .pomodoro => s.pomodoroMinutes
  | .shortBreak => s.shortBreakMinutes
  | .longBreak => s.longBreakMinutes

/-- `TimerController.setMode`: set the mode, recompute the total from the
settings, reset the countdown, stop running, and clear any interval
handle (the source nulls `timerInterval` unconditionally). -/
def setMode (st : TState) (m : Mode) : TState :=
  { st with currentMode := m
            totalTime := modeMinutes st.settings m * 60
            timeRemaining := modeMinutes st.settings m * 60
            isRunning := false
            timerInterval := false }

/-- `TimerController.start`: no-op when already running; otherwise set the
running flag and install a fresh interval source.  Assigning over a handle
that was still present without clearing it would leak that source. -/
def start (st : TState) : TState :=
  if st.isRunning then st
  else
    { st with isRunning := true
              timerInterval := true
              leakedSources := st.leakedSources + (if st.timerInterval then 1 else 0) }

/-- `TimerController.pause`: no-op when not running; otherwise clear the
running flag and the interval handle. -/
def pause (st : TState) : TState :=
  if st.isRunning then { st with isRunning := false, timerInterval := false }
  else st

/-- `x % y === 0` in JavaScript: false when `y = 0` (the remainder is NaN),
otherwise true exactly when `y` divides `x`. -/
def jsModEqZero (x y : Int) : Bool :=
  y != 0 && x % y == 0

/-- The next-mode computation inside `TimerController.complete`, applied to
the (already updated) `completedPomodoros`. -/
def nextModeOf (mode : Mode) (completed interval : Int) : Mode :=
  match mode with
  | .pomodoro => if jsModEqZero completed interval then .longBreak else .shortBreak
  | _ => .pomodoro

/-- `TimerController.complete(skipped)` at instant `now` with timezone
offset `tz` minutes: pause; play the chime at volume `soundVolume / 100`
whenever `soundEnabled`; when the mode is pomodoro and not skipped,
increment `completedPomodoros` and emit a session (date from
`toISOString`, hour from `getHours`, duration from the settings) through
`StorageManager.addSession`; compute the next mode from the updated
counter and schedule `setMode(nextMode)` after the fixed delay. -/
def complete (now tz : Int) (st : TState) (skipped : Bool) : TState :=
  let st1 := pause st
  let st1 := { st1 with completions := st1.completions + 1 }
  let st2 :=
    if st1.settings.soundEnabled then
      { st1 with chimes := st1.chimes ++ [(st1.settings.soundVolume : Rat) / 100] }
    else st1
  let st3 :=
    if st2.currentMode = .pomodoro ∧ skipped = false then
      let s : Session :=
        { date := utcDateOf now
          hour := localHourOf now tz
          duration := st2.settings.pomodoroMinutes
          stype := .pomodoro
          timestamp := now }
      let newStored := addSession st2.stored now s
      { st2 with completedPomodoros := st2.completedPomodoros + 1
                 stored := newStored
                 sessions := newStored
                 emitted := st2.emitted ++ [s] }
    else st2
  let nm := nextModeOf st3.currentMode st3.completedPomodoros st3.settings.longBreakInterval
  { st3 with pendingMode := some nm }

/-- `TimerController.toggle`. -/
def toggle (st : TState) : TState :=
  if st.isRunning then pause st else start st

/-- `TimerController.reset`: pause, then recompute the countdown from the
current mode without changing the mode. -/
def reset (st : TState) : TState :=
  let st1 := pause st
  { st1 with timeRemaining := modeMinutes st1.settings st1.currentMode * 60
             totalTime := modeMinutes st1.settings st1.currentMode * 60 }

/-- `TimerController.skip`: pause, then complete as skipped. -/
def skip (now tz : Int) (st : TState) : TState :=
  complete now tz (pause st) true

/-- One firing of the interval callback installed by `start`: it only runs
while a source is active; it decrements the countdown and invokes
`complete(false)` when the result is `<= 0`. -/
def tick (now tz : Int) (st : TState) : TState :=
  if st.timerInterval then
    let st1 := { st with timeRemaining := st.timeRemaining - 1 }
    if st1.timeRemaining ≤ 0 then complete now tz st1 false else st1
  else st

/-- Delivering `n` tick firings in sequence. -/
def tickN (now tz : Int) : Nat → TState → TState
  | 0, st => st
  | n + 1, st => tickN now tz n (tick now tz st)

/-- The delayed `setMode(nextMode)` scheduled by `complete` firing. -/
def firePending (st : TState) : TState :=
  match st.pendingMode with
  | some m => setMode { st with pendingMode := none } m
  | none => st

/-- The tail of `UIController.saveSettings`: install the validated
settings, then `setMode(AppState.currentMode)` to reset the timer. -/
def uiApplySettings (f : SettingsForm) (st : TState) : TState :=
  setMode { st with settings := uiSaveSettings f } st.currentMode

/-- The state right after `DOMContentLoaded`: settings and sessions are
loaded from storage, every flag and counter starts cleared, and
`setMode(pomodoro)` is applied. -/
def initState (s : Settings) (stored : List Session) : TState :=
  setMode
    { currentMode := .pomodoro
      isRunning := false
      timeRemaining := 25 * 60
      totalTime := 25 * 60
      timerInterval := false
      completedPomodoros := 0
      settings := s
      sessions := stored
      stored := stored
      pendingMode := none
      leakedSources := 0
      completions := 0
      chimes := []
      emitted := [] }
    .pomodoro

/-- One user- or runtime-triggered operation on the state: the mode tabs,
the start/pause, reset and skip buttons, a firing of the interval source,
the delayed mode switch, and the settings dialog. -/
inductive Step : TState → TState → Prop where
  | setMode (st : TState) (m : Mode) : Step st (setMode st m)
  | start (st : TState) : Step st (start st)
  | pause (st : TState) : Step st (pause st)
  | toggle (st : TState) : Step st (toggle st)
  | reset (st : TState) : Step st (reset st)
  | skip (st : TState) (now tz : Int) : Step st (skip now tz st)
  | tick (st : TState) (now tz : Int) : Step st (tick now tz st)
  | firePending (st : TState) : Step st (firePending st)
  | saveSettings (st : TState) (f : SettingsForm) : Step st (uiApplySettings f st)

/-- States reachable from application startup. -/
inductive Reachable : TState → Prop where
  | boot (s : Settings) (stored : List Session) : Reachable (initState s stored)
  | step {st st' : TState} : Reachable st → Step st st' → Reachable st'

/-! ### Statistics aggregator (`UIController.calculateStreak` /
`UIController.calculatePeriodStats`) -/

/-- `AppState.sessions.some(s => s.date === dateStr && s.type === "pomodoro")`. -/
def hasFocusSessionOn (sessions : List Session) (d : Int) : Bool :=
  sessions.any (fun s => s.date == d && s.stype == Mode.pomodoro)

/-- Lower bound on all session dates (and on `b`), used to show the streak
walk terminates: once the walk passes below every stored date, no further
day can have a session. -/
def minSessionDate (sessions : List Session) (b : Int) : Int :=
  sessions.foldr (fun s m => min s.date m) b

theorem minSessionDate_le_base (sessions : List Session) (b : Int) :
    minSessionDate sessions b ≤ b := by
  induction sessions with
  | nil => exact le_refl b
  | cons s rest ih =>
      calc minSessionDate (s :: rest) b ≤ minSessionDate rest b := min_le_right _ _
        _ ≤ b := ih

theorem minSessionDate_le_mem {s : Session} {sessions : List Session}
    (h : s ∈ sessions) (b : Int) : minSessionDate sessions b ≤ s.date := by
  induction sessions with
  | nil => cases h
  | cons x rest ih =>
      rcases List.mem_cons.mp h with h1 | h1
      · subst h1; exact min_le_left _ _
      · calc minSessionDate (x :: rest) b ≤ minSessionDate rest b := min_le_right _ _
          _ ≤ s.date := ih h1

theorem minSessionDate_le_of_has {sessions : List Session} {d : Int}
    (h : hasFocusSessionOn sessions d = true) (b : Int) :
    minSessionDate sessions b ≤ d := by
  rcases List.any_eq_true.mp h with ⟨s, hs, hp⟩
  rcases (Bool.and_eq_true _ _).mp hp with ⟨h1, _⟩
  have hd : s.date = d := by exact_mod_cast beq_iff_eq.mp h1
  exact hd ▸ minSessionDate_le_mem hs b

/-- The while-loop of `UIController.calculateStreak`: while the day under
the cursor has a session, count it and step back one day; a sessionless
day equal to today is stepped over without counting; any other
sessionless day stops the walk. -/
def streakGo (sessions : List Session) (today d : Int) (acc : Nat) : Nat :=
  if h1 : hasFocusSessionOn sessions d = true then
    streakGo sessions today (d - 1) (acc + 1)
  else if h2 : d = today then
    streakGo sessions today (d - 1) acc
  else acc
termination_by (d + 2 - minSessionDate sessions today).toNat
decreasing_by
  · have hm := minSessionDate_le_of_has h1 today
    omega
  · have hm := minSessionDate_le_base sessions today
    omega

/-- `UIController.calculateStreak`, starting the walk at today. -/
def calculateStreak (sessions : List Session) (today : Int) : Nat :=
  streakGo sessions today today 0

/-- One row of the per-day series of `calculatePeriodStats`.  The
human-readable label produced by `toLocaleDateString` is a locale
rendering of `date` and is abstracted away. -/
structure DailyEntry where
  date : Int
  minutes : Int
  pomodoros : Nat
deriving DecidableEq

/-- The return value of `UIController.calculatePeriodStats`. -/
structure PeriodStats where
  totalPomodoros : Nat
  totalMinutes : Int
  dailyData : List DailyEntry
  hourlyData : List Int
deriving DecidableEq

/-- `UIController.calculatePeriodStats(days)` at day index `today`: filter
the sessions to the pomodoro sessions of the last `days` calendar days
(window endpoints from `setHours(0,0,0,0)` / `setHours(23,59,59,999)`,
which at day granularity is `startD ≤ date ≤ today`), build one daily
entry per day of the window in chronological order, and accumulate a
24-slot per-hour minute total. -/
def calculatePeriodStats (sessions : List Session) (today : Int) (days : Nat) :
    PeriodStats :=
  let startD : Int := today - days + 1
  let periodSessions := sessions.filter
    (fun s => decide (startD ≤ s.date) && decide (s.date ≤ today)
      && s.stype == Mode.pomodoro)
  let dailyData := (List.range days).map (fun (i : Nat) =>
    let dateD := startD + (i : Int)
    let daySessions := periodSessions.filter (fun s => s.date == dateD)
    { date := dateD
      minutes := (daySessions.map (fun s => s.duration)).sum
      pomodoros := daySessions.length })
  let hourlyData := periodSessions.foldl
    (fun acc s => acc.set s.hour.toNat (acc.getD s.hour.toNat 0 + s.duration))
    (List.replicate 24 0)
  { totalPomodoros := periodSessions.length
    totalMinutes := (periodSessions.map (fun s => s.duration)).sum
    dailyData := dailyData
    hourlyData := hourlyData }

/-! ### Projection lemmas for the timer operations -/

theorem pause_settings (st : TState) : (pause st).settings = st.settings := by
  unfold pause; split <;> rfl

theorem pause_currentMode (st : TState) : (pause st).currentMode = st.currentMode := by
  unfold pause; split <;> rfl

theorem pause_chimes (st : TState) : (pause st).chimes = st.chimes := by
  unfold pause; split <;> rfl

theorem pause_completions (st : TState) : (pause st).completions = st.completions := by
  unfold pause; split <;> rfl

theorem pause_completedPomodoros (st : TState) :
    (pause st).completedPomodoros = st.completedPomodoros := by
  unfold pause; split <;> rfl

theorem pause_timeRemaining (st : TState) :
    (pause st).timeRemaining = st.timeRemaining := by
  unfold pause; split <;> rfl

theorem pause_stored (st : TState) : (pause st).stored = st.stored := by
  unfold pause; split <;> rfl

theorem pause_emitted (st : TState) : (pause st).emitted = st.emitted := by
  unfold pause; split <;> rfl

theorem pause_leakedSources (st : TState) :
    (pause st).leakedSources = st.leakedSources := by
  unfold pause; split <;> rfl

theorem pause_isRunning (st : TState) : (pause st).isRunning = false := by
  unfold pause
  by_cases h : st.isRunning = true <;> simp [h]

theorem complete_chimes_eq (now tz : Int) (st : TState) (sk : Bool) :
    (complete now tz st sk).chimes =
      st.chimes ++
        (if st.settings.soundEnabled then [(st.settings.soundVolume : Rat) / 100]
         else []) := by
  by_cases h1 : st.settings.soundEnabled = true <;>
    by_cases h2 : st.currentMode = Mode.pomodoro ∧ sk = false <;>
    · unfold complete
      simp [pause_settings, pause_currentMode, pause_chimes, h1, h2]

theorem complete_timeRemaining (now tz : Int) (st : TState) (sk : Bool) :
    (complete now tz st sk).timeRemaining = st.timeRemaining := by
  by_cases h1 : st.settings.soundEnabled = true <;>
    by_cases h2 : st.currentMode = Mode.pomodoro ∧ sk = false <;>
    · unfold complete
      simp [pause_settings, pause_currentMode, pause_timeRemaining, h1, h2]

theorem complete_completions (now tz : Int) (st : TState) (sk : Bool) :
    (complete now tz st sk).completions = st.completions + 1 := by
  by_cases h1 : st.settings.soundEnabled = true <;>
    by_cases h2 : st.currentMode = Mode.pomodoro ∧ sk = false <;>
    · unfold complete
      simp [pause_settings, pause_currentMode, pause_completions, h1, h2]

theorem complete_completedPomodoros (now tz : Int) (st : TState) (sk : Bool) :
    (complete now tz st sk).completedPomodoros =
      (if st.currentMode = Mode.pomodoro ∧ sk = false then st.completedPomodoros + 1
       else st.completedPomodoros) := by
  by_cases h1 : st.settings.soundEnabled = true <;>
    by_cases h2 : st.currentMode = Mode.pomodoro ∧ sk = false <;>
    · unfold complete
      simp [pause_settings, pause_currentMode, pause_completedPomodoros, h1, h2]

theorem complete_pendingMode (now tz : Int) (st : TState) (sk : Bool) :
    (complete now tz st sk).pendingMode =
      some (nextModeOf st.currentMode
        (if st.currentMode = Mode.pomodoro ∧ sk = false then st.completedPomodoros + 1
         else st.completedPomodoros)
        st.settings.longBreakInterval) := by
  by_cases h1 : st.settings.soundEnabled = true <;>
    by_cases h2 : st.currentMode = Mode.pomodoro ∧ sk = false <;>
    · unfold complete
      simp [pause_settings, pause_currentMode, pause_completedPomodoros, h1, h2]

theorem complete_emitted (now tz : Int) (st : TState) (sk : Bool) :
    (complete now tz st sk).emitted =
      st.emitted ++
        (if st.currentMode = Mode.pomodoro ∧ sk = false then
          [{ date := utcDateOf now
             hour := localHourOf now tz
             duration := st.settings.pomodoroMinutes
             stype := Mode.pomodoro
             timestamp := now }]
         else []) := by
  by_cases h1 : st.settings.soundEnabled = true <;>
    by_cases h2 : st.currentMode = Mode.pomodoro ∧ sk = false <;>
    · unfold complete
      simp [pause_settings, pause_currentMode, pause_emitted, h1, h2]

/-- The startup state with default settings and an empty store, used as a
concrete sample point. -/
def st0 : TState := initState defaultSettings []

/-! ### Claim C1: when the completion chime plays -/

/-- C1, counterexample.  The claim says no chime is played when the mode
is a break or the completion is skipped.  In the state reached by
switching the fresh application to short-break mode (sound enabled, the
default), a skipped completion still plays the chime at volume 1/2. -/
theorem claim_C1_counterexample :
    (setMode st0 Mode.shortBreak).currentMode = Mode.shortBreak
  ∧ (setMode st0 Mode.shortBreak).settings.soundEnabled = true
  ∧ (complete 0 0 (setMode st0 Mode.shortBreak) true).chimes = [(1 : Rat) / 2] := by
  refine ⟨rfl, rfl, ?_⟩
  rw [complete_chimes_eq]
  norm_num [st0, initState, setMode, defaultSettings]

/-- C1, amended.  `TimerController.complete` plays the chime exactly when
`soundEnabled` is true, regardless of the current mode and of whether the
completion was skipped, and the volume passed is `soundVolume / 100`. -/
theorem claim_C1_amended (now tz : Int) (st : TState) (skipped : Bool) :
    (complete now tz st skipped).chimes =
      st.chimes ++
        (if st.settings.soundEnabled then [(st.settings.soundVolume : Rat) / 100]
         else []) :=
  complete_chimes_eq now tz st skipped

/-! ### Claim C3: the next-mode computation -/

/-- C3.  On completion in a break mode the next mode is always pomodoro;
on completion in pomodoro mode the counter is first incremented when the
completion was not skipped, and the next mode is the long break exactly
when the (updated) counter is divisible by `longBreakInterval`, the short
break otherwise. -/
theorem claim_C3 (now tz : Int) (st : TState) (sk : Bool)
    (hiv : 0 < st.settings.longBreakInterval) :
    ((st.currentMode = Mode.shortBreak ∨ st.currentMode = Mode.longBreak) →
        (complete now tz st sk).pendingMode = some Mode.pomodoro)
  ∧ (st.currentMode = Mode.pomodoro →
      (complete now tz st sk).completedPomodoros =
          (if sk then st.completedPomodoros else st.completedPomodoros + 1)
      ∧ ((complete now tz st sk).pendingMode = some Mode.longBreak ↔
          (if sk then st.completedPomodoros else st.completedPomodoros + 1) %
            st.settings.longBreakInterval = 0)
      ∧ ((complete now tz st sk).pendingMode = some Mode.shortBreak ↔
          ¬ (if sk then st.completedPomodoros else st.completedPomodoros + 1) %
            st.settings.longBreakInterval = 0)) := by
  have hiv0 : st.settings.longBreakInterval ≠ 0 := by omega
  constructor
  · intro hm
    rw [complete_pendingMode]
    rcases hm with hm | hm <;> simp [hm, nextModeOf]
  · intro hm
    rw [complete_pendingMode, complete_completedPomodoros]
    have hcount :
        (if st.currentMode = Mode.pomodoro ∧ sk = false then st.completedPomodoros + 1
         else st.completedPomodoros) =
          (if sk then st.completedPomodoros else st.completedPomodoros + 1) := by
      cases sk <;> simp [hm]
    rw [hcount, hm]
    refine ⟨rfl, ?_, ?_⟩ <;>
      by_cases hz :
        (if sk then st.completedPomodoros else st.completedPomodoros + 1) %
          st.settings.longBreakInterval = 0 <;>
      simp [nextModeOf, jsModEqZero, hz, hiv0]

/-- C3, witness.  With the default interval 4 and three completed focus
sessions, a non-skipped focus completion (counter becomes 4) schedules the
long break. -/
theorem claim_C3_witness :
    (complete 0 0 { st0 with completedPomodoros := 3 } false).pendingMode =
      some Mode.longBreak := by
  have h := claim_C3 0 0 { st0 with completedPomodoros := 3 } false (by decide)
  exact (h.2 rfl).2.1.mpr (by decide)

/-! ### Claim C8: settings validation clamps -/

/-- A settings form with an out-of-range volume, used as the C8 sample. -/
def form150 : SettingsForm :=
  { pomodoroMinutes := some 25
    shortBreakMinutes := some 5
    longBreakMinutes := some 15
    longBreakInterval := some 0
    soundEnabled := true
    soundVolume := some 150 }

/-- C8, counterexample.  The claim says every numeric field is clamped to
its range, `soundVolume` in particular to 0..100.  Saving a form whose
volume field reads 150 persists `soundVolume = 150`: the source never
clamps the volume. -/
theorem claim_C8_counterexample :
    (uiSaveSettings form150).soundVolume = 150
  ∧ ¬ (uiSaveSettings form150).soundVolume ≤ 100 := by
  decide

/-- C8, amended.  `UIController.saveSettings` clamps the four duration and
interval fields to their ranges (1..90, 1..30, 1..60, 2..8) — in
particular a zero or negative interval is never persisted, the result is
always at least 2 — but `soundVolume` is only replaced by the default 50
when the field is empty or reads 0; any other value, in range or not, is
persisted unchanged. -/
theorem claim_C8_amended (f : SettingsForm) :
    (1 ≤ (uiSaveSettings f).pomodoroMinutes ∧ (uiSaveSettings f).pomodoroMinutes ≤ 90)
  ∧ (1 ≤ (uiSaveSettings f).shortBreakMinutes ∧ (uiSaveSettings f).shortBreakMinutes ≤ 30)
  ∧ (1 ≤ (uiSaveSettings f).longBreakMinutes ∧ (uiSaveSettings f).longBreakMinutes ≤ 60)
  ∧ (2 ≤ (uiSaveSettings f).longBreakInterval ∧ (uiSaveSettings f).longBreakInterval ≤ 8)
  ∧ (∀ v : Int, f.soundVolume = some v → v ≠ 0 → (uiSaveSettings f).soundVolume = v) := by
  unfold uiSaveSettings clamp
  refine ⟨⟨?_, ?_⟩, ⟨?_, ?_⟩, ⟨?_, ?_⟩, ⟨?_, ?_⟩, ?_⟩
  · simp only []; omega
  · simp only []; omega
  · simp only []; omega
  · simp only []; omega
  · simp only []; omega
  · simp only []; omega
  · simp only []; omega
  · simp only []; omega
  · intro v hv hnz
    simp [orDefault, hv, hnz]

/-- C8, witness for the amended claim at the sample form: the interval
field reading 0 is saved as a value between 2 and 8, and the nonzero
volume 150 is persisted as given. -/
theorem claim_C8_witness :
    (2 ≤ (uiSaveSettings form150).longBreakInterval
      ∧ (uiSaveSettings form150).longBreakInterval ≤ 8)
  ∧ (uiSaveSettings form150).soundVolume = 150 :=
  ⟨(claim_C8_amended form150).2.2.2.1,
   (claim_C8_amended form150).2.2.2.2 150 rfl (by decide)⟩

/-! ### Claim C9: settings round-trip -/

/-- C9, counterexample.  `soundVolume = 0` is inside the documented
0..100 range, yet saving the loaded settings turns it into 50: the falsy
default in `parseInt(...) || 50` rewrites a legitimate 0. -/
theorem claim_C9_counterexample :
    (0 ≤ ({ defaultSettings with soundVolume := 0 } : Settings).soundVolume
      ∧ ({ defaultSettings with soundVolume := 0 } : Settings).soundVolume ≤ 100)
  ∧ uiSaveSettings (formOf (loadSettings (toStored { defaultSettings with soundVolume := 0 })))
      ≠ { defaultSettings with soundVolume := 0 }
  ∧ (uiSaveSettings (formOf (loadSettings (toStored
        { defaultSettings with soundVolume := 0 })))).soundVolume = 50 := by
  decide

/-- C9, amended.  Persisting settings and loading them back is lossless
for every settings value, and the full save-after-load round trip through
the form is the identity on settings whose fields are in their code
ranges and whose volume is nonzero (1..100). -/
theorem claim_C9_amended (s : Settings)
    (h1 : 1 ≤ s.pomodoroMinutes) (h2 : s.pomodoroMinutes ≤ 90)
    (h3 : 1 ≤ s.shortBreakMinutes) (h4 : s.shortBreakMinutes ≤ 30)
    (h5 : 1 ≤ s.longBreakMinutes) (h6 : s.longBreakMinutes ≤ 60)
    (h7 : 2 ≤ s.longBreakInterval) (h8 : s.longBreakInterval ≤ 8)
    (h9 : 1 ≤ s.soundVolume) (h10 : s.soundVolume ≤ 100) :
    loadSettings (toStored s) = s ∧ uiSaveSettings (formOf s) = s := by
  obtain ⟨p, sb, lb, iv, se, sv⟩ := s
  dsimp at h1 h2 h3 h4 h5 h6 h7 h8 h9 h10
  constructor
  · rfl
  · simp only [uiSaveSettings, formOf, orDefault, clamp, Settings.mk.injEq]
    refine ⟨?_, ?_, ?_, ?_, trivial, ?_⟩ <;> split_ifs <;> omega

/-- C9, witness for the amended claim at the default settings. -/
theorem claim_C9_witness :
    loadSettings (toStored defaultSettings) = defaultSettings
  ∧ uiSaveSettings (formOf defaultSettings) = defaultSettings :=
  claim_C9_amended defaultSettings (by decide) (by decide) (by decide) (by decide)
    (by decide) (by decide) (by decide) (by decide) (by decide) (by decide)

/-! ### Claim C10: appending and pruning the session store -/

/-- The sample instant for C10: day 200, ten hours into the day. -/
def exNow : Int := 200 * 1440 + 600

/-- A session dated 91 days before day 200. -/
def oldSession : Session :=
  { date := 109, hour := 10, duration := 25, stype := Mode.pomodoro, timestamp := 0 }

/-- A fresh session dated day 200. -/
def freshSession : Session :=
  { date := 200, hour := 14, duration := 25, stype := Mode.pomodoro, timestamp := exNow }

/-- C10.  `StorageManager.addSession` keeps only entries at or after the
90-day cutoff, keeps every such entry of the appended list, returns a
subsequence of the appended list (insertion order preserved, no
resorting), and when the appended session itself is young, the result is
exactly the pruned old list with the new session at the end.  On the
sample store holding a 91-day-old session, appending a fresh session
returns the fresh session alone. -/
theorem claim_C10 (stored : List Session) (now : Int) (s : Session) :
    (∀ e ∈ addSession stored now s, now - 90 * 1440 ≤ e.date * 1440)
  ∧ (∀ e ∈ stored ++ [s], now - 90 * 1440 ≤ e.date * 1440 →
      e ∈ addSession stored now s)
  ∧ List.Sublist (addSession stored now s) (stored ++ [s])
  ∧ (sessionKeep now s = true →
      addSession stored now s = stored.filter (sessionKeep now) ++ [s])
  ∧ addSession [oldSession] exNow freshSession = [freshSession] := by
  refine ⟨?_, ?_, ?_, ?_, ?_⟩
  · intro e he
    have hk := List.of_mem_filter he
    simpa [sessionKeep] using hk
  · intro e he hk
    exact List.mem_filter.mpr ⟨he, by simpa [sessionKeep] using hk⟩
  · exact List.filter_sublist _
  · intro hk
    simp [addSession, List.filter_append, hk]
  · decide

/-- C10, witness: at the sample inputs, the fresh session is kept while
the 91-day-old one is pruned. -/
theorem claim_C10_witness :
    freshSession ∈ addSession [oldSession] exNow freshSession
  ∧ oldSession ∉ addSession [oldSession] exNow freshSession := by
  constructor
  · exact (claim_C10 [oldSession] exNow freshSession).2.1 freshSession (by decide) (by decide)
  · intro hmem
    have h := (claim_C10 [oldSession] exNow freshSession).1 oldSession hmem
    revert h
    decide

/-! ### Claim C2: ticking a full period completes exactly once -/

theorem tickN_add (now tz : Int) (a b : Nat) (st : TState) :
    tickN now tz (a + b) st = tickN now tz b (tickN now tz a st) := by
  induction a generalizing st with
  | zero =>
      rw [Nat.zero_add]
      rfl
  | succ a ih =>
      have hab : a + 1 + b = (a + b) + 1 := by omega
      rw [hab]
      show tickN now tz (a + b) (tick now tz st) = _
      rw [ih]
      rfl

/-- While more ticks remain than are delivered, each tick only decrements
the countdown: no completion fires and no other field changes. -/
theorem tickN_run (now tz : Int) :
    ∀ (k : Nat) (st : TState), st.timerInterval = true →
      (k : Int) < st.timeRemaining →
      tickN now tz k st = { st with timeRemaining := st.timeRemaining - k } := by
  intro k
  induction k with
  | zero =>
      intro st _ _
      show st = _
      simp
  | succ k ih =>
      intro st hint hk
      have hlt : (1 : Int) < st.timeRemaining - k := by push_cast at hk; omega
      have htick : tick now tz st = { st with timeRemaining := st.timeRemaining - 1 } := by
        unfold tick
        rw [if_pos hint]
        dsimp only
        rw [if_neg (by omega)]
      show tickN now tz k (tick now tz st) = _
      rw [htick,
        ih { st with timeRemaining := st.timeRemaining - 1 } (by exact hint)
          (by dsimp only; omega)]
      have harith : st.timeRemaining - 1 - (k : Int) =
          st.timeRemaining - ((k : Nat) + 1 : Nat) := by push_cast; ring
      dsimp only
      rw [harith]

/-- C2.  From a paused timer whose countdown has been reset to
`settings[m].minutes * 60` seconds, `start()` followed by that many tick
firings drives `timeRemaining` to exactly 0 and invokes
`complete(skipped = false)` exactly once, on the final tick — after any
smaller number of ticks no completion has fired. -/
theorem claim_C2 (now tz : Int) (st : TState) (m : Mode)
    (_hm : st.currentMode = m)
    (htot : st.totalTime = modeMinutes st.settings m * 60)
    (hrem : st.timeRemaining = st.totalTime)
    (hmin : 1 ≤ modeMinutes st.settings m)
    (hrun : st.isRunning = false) :
    (tickN now tz st.totalTime.toNat (start st)).timeRemaining = 0
  ∧ (tickN now tz st.totalTime.toNat (start st)).completions = st.completions + 1
  ∧ ∀ k : Nat, k < st.totalTime.toNat →
      (tickN now tz k (start st)).completions = st.completions := by
  have hrun2 : ¬ st.isRunning = true := by simp [hrun]
  have hs0 : start st =
      { st with isRunning := true
                timerInterval := true
                leakedSources :=
                  st.leakedSources + (if st.timerInterval then 1 else 0) } := by
    unfold start
    rw [if_neg hrun2]
  have htpos : 0 < st.totalTime := by omega
  have hr : ((st.totalTime.toNat : Int)) = st.totalTime :=
    Int.toNat_of_nonneg (le_of_lt htpos)
  have hs0int : (start st).timerInterval = true := by rw [hs0]
  have hs0rem : (start st).timeRemaining = st.totalTime := by rw [hs0]; exact hrem
  have hs0comp : (start st).completions = st.completions := by rw [hs0]
  have hone : 1 ≤ st.totalTime.toNat := by omega
  have hstep : tickN now tz st.totalTime.toNat (start st) =
      tick now tz (tickN now tz (st.totalTime.toNat - 1) (start st)) := by
    conv_lhs => rw [show st.totalTime.toNat = (st.totalTime.toNat - 1) + 1 by omega]
    rw [tickN_add]
    rfl
  have hcast : ((st.totalTime.toNat - 1 : Nat) : Int) = st.totalTime - 1 := by
    push_cast [hone]
    omega
  have hs1 : tickN now tz (st.totalTime.toNat - 1) (start st) =
      { (start st) with
          timeRemaining := (start st).timeRemaining - ((st.totalTime.toNat - 1 : Nat)) } :=
    tickN_run now tz _ _ hs0int (by rw [hs0rem, hcast]; omega)
  have hs1rem :
      (start st).timeRemaining - (((st.totalTime.toNat - 1 : Nat) : Int)) = 1 := by
    rw [hs0rem, hcast]; omega
  have hfinal : tick now tz (tickN now tz (st.totalTime.toNat - 1) (start st)) =
      complete now tz
        { (start st) with timeRemaining :=
            (start st).timeRemaining - (((st.totalTime.toNat - 1 : Nat) : Int)) - 1 }
        false := by
    rw [hs1]
    unfold tick
    rw [if_pos hs0int]
    dsimp only
    rw [if_pos (show _ - 1 ≤ (0 : Int) by rw [hs1rem]; norm_num)]
  constructor
  · rw [hstep, hfinal, complete_timeRemaining]
    dsimp only
    rw [hs1rem]
    norm_num
  constructor
  · rw [hstep, hfinal, complete_completions]
    dsimp only
    rw [hs0comp]
  · intro k hk
    rw [tickN_run now tz k (start st) hs0int (by rw [hs0rem]; omega)]
    dsimp only
    exact hs0comp

/-- C2, witness: the fresh application (focus mode, 25 minutes) with the
full 1500-tick delivery. -/
theorem claim_C2_witness :
    (tickN 0 0 st0.totalTime.toNat (start st0)).timeRemaining = 0
  ∧ (tickN 0 0 st0.totalTime.toNat (start st0)).completions = st0.completions + 1
  ∧ ∀ k : Nat, k < st0.totalTime.toNat →
      (tickN 0 0 k (start st0)).completions = st0.completions :=
  claim_C2 0 0 st0 Mode.pomodoro rfl rfl rfl (by decide) rfl

/-! ### Claim C6: tick-source lifecycle -/

theorem pause_timerInterval_of (st : TState) (h : st.isRunning = st.timerInterval) :
    (pause st).timerInterval = false := by
  unfold pause
  by_cases hr : st.isRunning = true
  · rw [if_pos hr]
  · rw [if_neg hr]
    have hf : st.isRunning = false := by revert hr; cases st.isRunning <;> simp
    rw [← h]
    exact hf

theorem complete_leakedSources (now tz : Int) (st : TState) (sk : Bool) :
    (complete now tz st sk).leakedSources = st.leakedSources := by
  by_cases h1 : st.settings.soundEnabled = true <;>
    by_cases h2 : st.currentMode = Mode.pomodoro ∧ sk = false <;>
    · unfold complete
      simp [pause_settings, pause_currentMode, pause_leakedSources, h1, h2]

theorem complete_timerInterval (now tz : Int) (st : TState) (sk : Bool) :
    (complete now tz st sk).timerInterval = (pause st).timerInterval := by
  by_cases h1 : st.settings.soundEnabled = true <;>
    by_cases h2 : st.currentMode = Mode.pomodoro ∧ sk = false <;>
    · unfold complete
      simp [pause_settings, pause_currentMode, h1, h2]

theorem complete_isRunning (now tz : Int) (st : TState) (sk : Bool) :
    (complete now tz st sk).isRunning = false := by
  by_cases h1 : st.settings.soundEnabled = true <;>
    by_cases h2 : st.currentMode = Mode.pomodoro ∧ sk = false <;>
    · unfold complete
      simp [pause_settings, pause_currentMode, pause_isRunning, h1, h2]

/-- The resource-lifecycle invariant: no interval source has ever been
leaked, and the handle flag agrees with the running flag (so a paused
timer holds no source). -/
def Inv (st : TState) : Prop :=
  st.leakedSources = 0 ∧ st.isRunning = st.timerInterval

theorem inv_setMode {st : TState} (m : Mode) (h : Inv st) : Inv (setMode st m) :=
  ⟨h.1, rfl⟩

theorem inv_pause {st : TState} (h : Inv st) : Inv (pause st) := by
  obtain ⟨hl, hri⟩ := h
  unfold pause
  by_cases hr : st.isRunning = true
  · rw [if_pos hr]; exact ⟨hl, rfl⟩
  · rw [if_neg hr]; exact ⟨hl, hri⟩

theorem inv_start {st : TState} (h : Inv st) : Inv (start st) := by
  obtain ⟨hl, hri⟩ := h
  unfold start
  by_cases hr : st.isRunning = true
  · rw [if_pos hr]; exact ⟨hl, hri⟩
  · rw [if_neg hr]
    have hf : st.isRunning = false := by revert hr; cases st.isRunning <;> simp
    have ht : st.timerInterval = false := by rw [← hri]; exact hf
    constructor
    · dsimp only
      rw [ht]
      simpa using hl
    · rfl

theorem inv_toggle {st : TState} (h : Inv st) : Inv (toggle st) := by
  unfold toggle
  by_cases hr : st.isRunning = true
  · rw [if_pos hr]; exact inv_pause h
  · rw [if_neg hr]; exact inv_start h

theorem inv_complete {st : TState} (now tz : Int) (sk : Bool) (h : Inv st) :
    Inv (complete now tz st sk) := by
  refine ⟨?_, ?_⟩
  · rw [complete_leakedSources]; exact h.1
  · rw [complete_isRunning, complete_timerInterval, pause_timerInterval_of st h.2]

theorem inv_reset {st : TState} (h : Inv st) : Inv (reset st) := by
  have hp := inv_pause h
  exact ⟨hp.1, hp.2⟩

theorem inv_skip {st : TState} (now tz : Int) (h : Inv st) : Inv (skip now tz st) :=
  inv_complete now tz true (inv_pause h)

theorem inv_tick {st : TState} (now tz : Int) (h : Inv st) : Inv (tick now tz st) := by
  obtain ⟨hl, hri⟩ := h
  unfold tick
  by_cases hint : st.timerInterval = true
  · rw [if_pos hint]
    dsimp only
    by_cases hc : st.timeRemaining - 1 ≤ 0
    · rw [if_pos hc]
      exact inv_complete now tz false ⟨hl, hri⟩
    · rw [if_neg hc]
      exact ⟨hl, hri⟩
  · rw [if_neg hint]
    exact ⟨hl, hri⟩

theorem inv_firePending {st : TState} (h : Inv st) : Inv (firePending st) := by
  unfold firePending
  cases hpm : st.pendingMode with
  | none => exact h
  | some m => exact inv_setMode m ⟨h.1, h.2⟩

theorem inv_uiApplySettings {st : TState} (f : SettingsForm) (h : Inv st) :
    Inv (uiApplySettings f st) :=
  inv_setMode _ ⟨h.1, h.2⟩

/-- Every state the application can reach satisfies the lifecycle
invariant. -/
theorem reachable_inv {st : TState} (h : Reachable st) : Inv st := by
  induction h with
  | boot s stored => exact ⟨rfl, rfl⟩
  | step hr hstep ih =>
      cases hstep with
      | setMode m => exact inv_setMode m ih
      | start => exact inv_start ih
      | pause => exact inv_pause ih
      | toggle => exact inv_toggle ih
      | reset => exact inv_reset ih
      | skip now tz => exact inv_skip now tz ih
      | tick now tz => exact inv_tick now tz ih
      | firePending => exact inv_firePending ih
      | saveSettings f => exact inv_uiApplySettings f ih

/-- C6, counterexample.  The claim says `pause` cancels the active tick
source unconditionally, even when the timer is not running.  In a state
holding a source while not running, `pause` returns without touching the
source: its cancellation is guarded by `isRunning`.  (Such a state is not
reachable, which is why the observable guarantee below still holds.) -/
theorem claim_C6_counterexample :
    ({ st0 with timerInterval := true } : TState).isRunning = false
  ∧ ({ st0 with timerInterval := true } : TState).timerInterval = true
  ∧ (pause { st0 with timerInterval := true }).timerInterval = true := by
  refine ⟨rfl, rfl, ?_⟩
  rfl

/-- C6, amended.  `setMode` cancels any held tick source unconditionally;
`pause` and `reset` cancel it only when the timer is running — but in
every reachable state a non-running timer holds no source, so after any
of `setMode`, `pause` or `reset` no tick source remains active, no source
is ever leaked, and at most one tick source is active in every reachable
state. -/
theorem claim_C6_amended (st : TState) (h : Reachable st) :
    st.leakedSources + (if st.timerInterval then 1 else 0) ≤ 1
  ∧ (∀ m, (setMode st m).timerInterval = false
        ∧ (setMode st m).leakedSources = 0)
  ∧ ((pause st).timerInterval = false ∧ (pause st).leakedSources = 0)
  ∧ ((reset st).timerInterval = false ∧ (reset st).leakedSources = 0) := by
  obtain ⟨hl, hri⟩ := reachable_inv h
  refine ⟨?_, ?_, ⟨?_, ?_⟩, ⟨?_, ?_⟩⟩
  · rw [hl]
    split <;> omega
  · intro m
    exact ⟨rfl, hl⟩
  · exact pause_timerInterval_of st hri
  · rw [pause_leakedSources]; exact hl
  · exact pause_timerInterval_of st hri
  · exact (inv_reset ⟨hl, hri⟩).1

/-- C6, witness at the boot state. -/
theorem claim_C6_witness :
    st0.leakedSources + (if st0.timerInterval then 1 else 0) ≤ 1
  ∧ (∀ m, (setMode st0 m).timerInterval = false
        ∧ (setMode st0 m).leakedSources = 0)
  ∧ ((pause st0).timerInterval = false ∧ (pause st0).leakedSources = 0)
  ∧ ((reset st0).timerInterval = false ∧ (reset st0).leakedSources = 0) :=
  claim_C6_amended st0 (Reachable.boot defaultSettings [])

/-! ### Claim C7: the date and hour captured in an emitted session -/

/-- C7, counterexample.  The claim says the emitted session carries the
local calendar date of the completion instant.  At instant 1410 (23:30
UTC of day 0) in a timezone one hour east (offset +60), the local date is
day 1, but the session is stamped with the UTC day 0: the source derives
the date field from `toISOString`, which is UTC, while the hour comes
from `getHours`, which is local. -/
theorem claim_C7_counterexample :
    (complete 1410 60 st0 false).emitted.map Session.date = [utcDateOf 1410]
  ∧ utcDateOf 1410 = 0
  ∧ localDateOf 1410 60 = 1 := by
  refine ⟨?_, by decide, by decide⟩
  decide

/-- C7, amended.  A non-skipped focus completion at instant `now` emits
exactly one session, whose `date` is the UTC calendar day of `now` (the
ISO date, not the local one) and whose `hour` is the local hour of day,
always in 0..23. -/
theorem claim_C7_amended (now tz : Int) (st : TState)
    (hm : st.currentMode = Mode.pomodoro) :
    (complete now tz st false).emitted =
      st.emitted ++
        [{ date := utcDateOf now
           hour := localHourOf now tz
           duration := st.settings.pomodoroMinutes
           stype := Mode.pomodoro
           timestamp := now }]
  ∧ 0 ≤ localHourOf now tz ∧ localHourOf now tz < 24 := by
  refine ⟨?_, ?_, ?_⟩
  · rw [complete_emitted]
    simp [hm]
  · unfold localHourOf
    rw [Int.fdiv_eq_ediv _ (by norm_num)]
    have hb1 : 0 ≤ (now + tz).emod 1440 := Int.emod_nonneg _ (by norm_num)
    have hb2 : (now + tz).emod 1440 < 1440 := Int.emod_lt_of_pos _ (by norm_num)
    omega
  · unfold localHourOf
    rw [Int.fdiv_eq_ediv _ (by norm_num)]
    have hb1 : 0 ≤ (now + tz).emod 1440 := Int.emod_nonneg _ (by norm_num)
    have hb2 : (now + tz).emod 1440 < 1440 := Int.emod_lt_of_pos _ (by norm_num)
    omega

/-- C7, witness at the boot state and instant 1410 with offset 0. -/
theorem claim_C7_witness :
    (complete 1410 0 st0 false).emitted =
      [{ date := utcDateOf 1410
         hour := localHourOf 1410 0
         duration := 25
         stype := Mode.pomodoro
         timestamp := 1410 }]
  ∧ 0 ≤ localHourOf 1410 0 ∧ localHourOf 1410 0 < 24 := by
  have h := claim_C7_amended 1410 0 st0 rfl
  simpa [st0, initState, setMode, defaultSettings] using h

/-! ### Claim C5: the dense daily series and hourly histogram -/

theorem hourly_foldl_length (l : List Session) (acc : List Int) :
    (l.foldl
      (fun acc s => acc.set s.hour.toNat (acc.getD s.hour.toNat 0 + s.duration))
      acc).length = acc.length := by
  induction l generalizing acc with
  | nil => rfl
  | cons s rest ih => rw [List.foldl_cons, ih, List.length_set]

theorem getD_map_range {α : Type} {days i : Nat} (hi : i < days) (f : Nat → α)
    (d : α) : ((List.range days).map f).getD i d = f i := by
  rw [List.getD_eq_getElem?_getD, List.getElem?_map, List.getElem?_range hi]
  rfl

theorem filter_date_nil {sessions l : List Session}
    (hsub : ∀ a ∈ l, a ∈ sessions) (d : Int)
    (hno : ∀ s ∈ sessions, s.date ≠ d) :
    l.filter (fun s => s.date == d) = [] := by
  rw [List.filter_eq_nil_iff]
  intro a ha
  simp [hno a (hsub a ha)]

/-- The default entry used when indexing the daily series. -/
def zeroEntry : DailyEntry := { date := 0, minutes := 0, pomodoros := 0 }

/-- The single sample session of the C5 scenario: dated day 100, 30
minutes, at hour 14. -/
def exSession : Session :=
  { date := 100, hour := 14, duration := 30, stype := Mode.pomodoro, timestamp := 0 }

/-- C5.  `calculatePeriodStats(days)` returns a dense daily series whose
dates are exactly the `days` consecutive calendar days ending today, in
chronological order; a 24-slot hourly series; a day of the window touched
by no session yields a zero entry.  On a store holding only the sample
session (dated today, 30 minutes, hour 14) with `days = 7`, the series
has 7 entries, the entry for today reads 30 minutes and 1 pomodoro, the
six other entries are zero, the hourly series is 30 at slot 14 and 0
elsewhere, and the totals are 30 minutes and 1 pomodoro. -/
theorem claim_C5 (sessions : List Session) (today : Int) (days : Nat) :
    (calculatePeriodStats sessions today days).dailyData.map DailyEntry.date =
      (List.range days).map (fun (i : Nat) => today - days + 1 + (i : Int))
  ∧ (calculatePeriodStats sessions today days).hourlyData.length = 24
  ∧ (∀ i : Nat, i < days → (∀ s ∈ sessions, s.date ≠ today - days + 1 + i) →
      (calculatePeriodStats sessions today days).dailyData.getD i zeroEntry =
        { date := today - days + 1 + i, minutes := 0, pomodoros := 0 })
  ∧ ((calculatePeriodStats [exSession] 100 7).dailyData.length = 7
      ∧ (calculatePeriodStats [exSession] 100 7).dailyData.getD 6 zeroEntry =
          { date := 100, minutes := 30, pomodoros := 1 }
      ∧ (∀ i : Nat, i < 6 →
          (calculatePeriodStats [exSession] 100 7).dailyData.getD i zeroEntry =
            { date := 94 + i, minutes := 0, pomodoros := 0 })
      ∧ (calculatePeriodStats [exSession] 100 7).hourlyData =
          [0, 0, 0, 0, 0, 0, 0, 0, 0, 0, 0, 0, 0, 0, 30, 0, 0, 0, 0, 0, 0, 0, 0, 0]
      ∧ (calculatePeriodStats [exSession] 100 7).totalMinutes = 30
      ∧ (calculatePeriodStats [exSession] 100 7).totalPomodoros = 1) := by
  refine ⟨?_, ?_, ?_, ?_⟩
  · unfold calculatePeriodStats
    dsimp only
    rw [List.map_map]
    rfl
  · unfold calculatePeriodStats
    dsimp only
    rw [hourly_foldl_length, List.length_replicate]
  · intro i hi hno
    unfold calculatePeriodStats
    dsimp only
    rw [getD_map_range hi]
    rw [filter_date_nil (fun a ha => List.mem_of_mem_filter ha) _ hno]
    rfl
  · refine ⟨by decide, by decide, by decide, by decide, by decide, by decide⟩

/-- C5, witness: the universal zero-day conjunct applied to the first day
of the sample window (day 94, which the sample session does not touch). -/
theorem claim_C5_witness :
    (calculatePeriodStats [exSession] 100 7).dailyData.getD 0 zeroEntry =
      { date := 94, minutes := 0, pomodoros := 0 } := by
  have h := (claim_C5 [exSession] 100 7).2.2.1 0 (by decide) (by decide)
  simpa using h

/-! ### Claim C4: the streak walk -/

/-- Once the walk is strictly below today, the skip branch can no longer
fire: the loop adds to the accumulator exactly the length of the run of
consecutive session days extending downward from the cursor, and stops on
the first sessionless day. -/
theorem streakGo_pure (sessions : List Session) (today : Int) :
    ∀ (d : Int) (acc : Nat), d < today →
      ∃ m : Nat, streakGo sessions today d acc = acc + m
        ∧ (∀ i : Nat, i < m → hasFocusSessionOn sessions (d - i) = true)
        ∧ hasFocusSessionOn sessions (d - m) = false := by
  intro d acc
  induction d, acc using streakGo.induct sessions today with
  | case1 d acc h1 ih =>
      intro hd
      obtain ⟨m, hEq, hAll, hEnd⟩ := ih (by omega)
      refine ⟨m + 1, ?_, ?_, ?_⟩
      · rw [streakGo.eq_def, dif_pos h1, hEq]
        omega
      · intro i hi
        cases i with
        | zero => simpa using h1
        | succ j =>
            have harg : d - ((j + 1 : Nat) : Int) = d - 1 - (j : Int) := by
              push_cast; ring
            rw [harg]
            exact hAll j (by omega)
      · have harg : d - ((m + 1 : Nat) : Int) = d - 1 - (m : Int) := by
          push_cast; ring
        rw [harg]
        exact hEnd
  | case2 acc h1 ih =>
      intro hd
      omega
  | case3 d acc h1 h2 =>
      intro hd
      refine ⟨0, ?_, ?_, ?_⟩
      · rw [streakGo.eq_def, dif_neg h1, dif_neg h2]
        omega
      · intro i hi
        omega
      · simpa using h1

/-- A focus session dated day `d`, for the C4 sample stores. -/
def streakS (d : Int) : Session :=
  { date := d, hour := 9, duration := 25, stype := Mode.pomodoro, timestamp := 0 }

/-- C4.  Let `s` be 0 when today has a session and 1 otherwise (the
allowed skip).  `calculateStreak` returns the number `n` of consecutive
session days walking backward from `today - s`: every one of the `n` days
below the start has a session and the day after the run has none.
Concretely: sessions on today and yesterday but not two days ago give 2,
a session yesterday but none today gives 1, and an empty store gives 0. -/
theorem claim_C4 (sessions : List Session) (today : Int) :
    ((∀ i : Nat, i < calculateStreak sessions today →
        hasFocusSessionOn sessions
          (today - (if hasFocusSessionOn sessions today then 0 else 1) - i) = true)
      ∧ hasFocusSessionOn sessions
          (today - (if hasFocusSessionOn sessions today then 0 else 1)
            - (calculateStreak sessions today : Int)) = false)
  ∧ calculateStreak [streakS 10, streakS 9] 10 = 2
  ∧ calculateStreak [streakS 9] 10 = 1
  ∧ calculateStreak ([] : List Session) 10 = 0 := by
  have conc1 : calculateStreak [streakS 10, streakS 9] 10 = 2 := by
    unfold calculateStreak
    rw [streakGo.eq_def, dif_pos (by decide), streakGo.eq_def, dif_pos (by decide),
      streakGo.eq_def, dif_neg (by decide), dif_neg (by decide)]
  have conc2 : calculateStreak [streakS 9] 10 = 1 := by
    unfold calculateStreak
    rw [streakGo.eq_def, dif_neg (by decide), dif_pos rfl, streakGo.eq_def,
      dif_pos (by decide), streakGo.eq_def, dif_neg (by decide), dif_neg (by decide)]
  have conc3 : calculateStreak ([] : List Session) 10 = 0 := by
    unfold calculateStreak
    rw [streakGo.eq_def, dif_neg (by decide), dif_pos rfl, streakGo.eq_def,
      dif_neg (by decide), dif_neg (by decide)]
  refine ⟨?_, conc1, conc2, conc3⟩
  by_cases ht : hasFocusSessionOn sessions today = true
  · obtain ⟨m, hEq, hAll, hEnd⟩ := streakGo_pure sessions today (today - 1) 1 (by omega)
    have hcs : calculateStreak sessions today = 1 + m := by
      unfold calculateStreak
      rw [streakGo.eq_def, dif_pos ht]
      rw [Nat.zero_add, hEq]
    constructor
    · intro i hi
      rw [hcs] at hi
      rw [if_pos ht]
      cases i with
      | zero => simpa using ht
      | succ j =>
          have harg : today - 0 - ((j + 1 : Nat) : Int) = today - 1 - (j : Int) := by
            push_cast; ring
          rw [harg]
          exact hAll j (by omega)
    · rw [hcs, if_pos ht]
      have harg : today - 0 - ((1 + m : Nat) : Int) = today - 1 - (m : Int) := by
        push_cast; ring
      rw [harg]
      exact hEnd
  · obtain ⟨m, hEq, hAll, hEnd⟩ := streakGo_pure sessions today (today - 1) 0 (by omega)
    have hcs : calculateStreak sessions today = m := by
      unfold calculateStreak
      rw [streakGo.eq_def, dif_neg ht, dif_pos rfl, hEq]
      omega
    constructor
    · intro i hi
      rw [hcs] at hi
      rw [if_neg ht]
      exact hAll i hi
    · rw [hcs, if_neg ht]
      exact hEnd

/-- C4, witness: the universal characterization applied to the two-day
sample store, at the first counted day. -/
theorem claim_C4_witness :
    hasFocusSessionOn [streakS 10, streakS 9]
      ((10 : Int) - (if hasFocusSessionOn [streakS 10, streakS 9] 10 then 0 else 1)
        - (0 : Nat)) = true := by
  have h := (claim_C4 [streakS 10, streakS 9] 10).1.1 0
  apply h
  rw [(claim_C4 [streakS 10, streakS 9] 10).2.1]
  decide

end Pomodoro
